import Mathlib

/-!
Verification development for the solana volume/copy-trading bot sources.

The TypeScript sources are shallowly embedded:
* JavaScript `number` arithmetic on prices and reserves is modelled over `ℚ`
  (the float values are abstracted as exact rationals, as the spec's formulas do);
* `Math.floor(a / b)` on integers is `Int.fdiv`, the JavaScript `%` operator is
  `Int.tmod` (both truncate/round exactly as the host language does);
* `BigInt`/`BN` values are `Nat`, buffers are `List Nat` of byte values;
* asynchronous RPC polling is modelled by an oracle `Nat → PollResult` giving the
  outcome of each successive network call;
* the orchestrator's websocket handler and buy loop are modelled as explicit
  state-passing functions over a session state, with an oracle for the outcomes
  of the underlying protocol buy calls.
-/

/-! ## JavaScript numeric helpers -/

/-- JavaScript `Math.round`: round to the nearest integer, half toward `+∞`. -/
def jsRound (x : ℚ) : ℚ := (⌊x + 1/2⌋ : ℤ)

/-- JavaScript `Number(x.toFixed(9))` / `parseFloat(x.toFixed(9))`: round to nine
decimal places (ties toward the larger value, per ECMA-262 `Number.prototype.toFixed`). -/
def toFixed9 (x : ℚ) : ℚ := ((⌊x * 10^9 + 1/2⌋ : ℤ) : ℚ) / 10^9

/-- Little-endian byte encoding of a natural number into `w` bytes
(`BN.toArrayLike(Buffer, 'le', w)` after masking, `DataView.setBigUint64(…, true)`). -/
def leBytes : Nat → Nat → List Nat
  | 0, _ => []
  | w + 1, n => n % 256 :: leBytes w (n / 256)

/-- Little-endian byte decoding (`new BN(buffer, 'le')`). -/
def leDecode : List Nat → Nat
  | [] => 0
  | b :: rest => b + 256 * leDecode rest

/-! ## 128-bit word split (src/raydium-copy-trading/layouts/cpmm.ts, decodeUInt128/encodeUInt128)

`encodeUInt128` writes `num.maskn(64)` as eight little-endian bytes followed by
`num.shrn(64)` as eight little-endian bytes; `decodeUInt128` reads the two words
back and returns `high.shln(64).add(low)`.  (`BN.toArrayLike` would throw for a
value of 2^128 or more, where the high word no longer fits in eight bytes; the
embedding is used on the claim's domain `n < 2^128`.) -/

def encodeUInt128 (num : Nat) : List Nat :=
  leBytes 8 (num % 2 ^ 64) ++ leBytes 8 (num / 2 ^ 64)

def decodeUInt128 (buffer : List Nat) : Nat :=
  let low := leDecode (buffer.take 8)
  let high := leDecode ((buffer.drop 8).take 8)
  high * 2 ^ 64 + low

/-! ## AMM-family pricing (src/raydium-copy-trading/raydium/amm_v4.ts lines 35-46;
the copy in raydium/cpmm.ts lines 60-71 is textually identical) -/

namespace AmmV4

/-- Tokens received for a given SOL amount (constant product with swap fee),
rounded to 9 decimals by `Number(tokensReceived.toFixed(9))`. -/
def solForTokens (solAmount baseVaultBalance quoteVaultBalance swapFee : ℚ) : ℚ :=
  let effectiveSolUsed := solAmount - solAmount * (swapFee / 100)
  let constantProduct := baseVaultBalance * quoteVaultBalance
  let updatedBaseVaultBalance := constantProduct / (quoteVaultBalance + effectiveSolUsed)
  let tokensReceived := baseVaultBalance - updatedBaseVaultBalance
  toFixed9 tokensReceived

end AmmV4

/-! ## Bonding-curve pricing (src/unnamed/part_004 lines 100-123) -/

namespace Pump

/-- Tokens received for `solSpent` SOL on the bonding curve
(no fee term, result rounded with `Math.round`). -/
def solForTokens (solSpent solReserves tokenReserves : ℚ) : ℚ :=
  let newSolReserves := solReserves + solSpent
  let newTokenReserves := (solReserves * tokenReserves) / newSolReserves
  let tokenReceived := tokenReserves - newTokenReserves
  jsRound tokenReceived

end Pump

/-! ## CLMM swap instruction data (src/raydium-copy-trading/utils/tick_array_bitmap_ext.ts,
makeClmmSwapInstruction lines 431-485, packU64 lines 164-170) -/

/-- Trade direction enum of the swap-instruction builders. -/
inductive Direction where
  | buy
  | sell
deriving DecidableEq

/-- Source `packU64`: throws unless `0 <= value < 2^64`, otherwise eight
little-endian bytes.  The throw is modelled as `none`. -/
def packU64 (value : Nat) : Option (List Nat) :=
  if value < 2 ^ 64 then some (leBytes 8 value) else none

/-- Discriminator bytes `Buffer.from('2b04ed0b1ac91e62', 'hex')`. -/
def clmmSwapDiscriminator : List Nat := [0x2b, 0x04, 0xed, 0x0b, 0x1a, 0xc9, 0x1e, 0x62]

/-- Instruction-data portion of `makeClmmSwapInstruction`: discriminator, amount,
`packU64(0)`, 16 zero bytes, one `true` byte.  The direction argument selects
vaults and mints for the account list only and never reaches the data buffer. -/
def makeClmmSwapInstructionData (amount : Nat) (_action : Direction) : Option (List Nat) :=
  match packU64 amount, packU64 0 with
  | some amountBytes, some zeroBytes =>
      some (clmmSwapDiscriminator ++ amountBytes ++ zeroBytes ++ List.replicate 16 0 ++ [1])
  | _, _ => none

/-! ## Concentrated-liquidity tick-array bitmap engine (src/unnamed/part_001) -/

def MIN_TICK : Int := -443636
def MAX_TICK : Int := 443636
def TICK_ARRAY_SIZE : Int := 60
def TICK_ARRAY_BITMAP_SIZE : Int := 512
def TOTAL_BITS : Nat := 1024

/-- Mask `(1n << 1024n) - 1n`. -/
def U1024_MASK : Nat := 2 ^ 1024 - 1

/-- Source `tickCount(tickSpacing) = TICK_ARRAY_SIZE * tickSpacing`. -/
def tickCount (tickSpacing : Int) : Int := TICK_ARRAY_SIZE * tickSpacing

/-- Source `getArrayStartIndex` (part_001 lines 499-506): `Math.floor` of the
quotient, an extra `-1` for negative ticks with non-zero `%` remainder, then
multiplied back by the per-array tick count. -/
def getArrayStartIndex (tickIndex tickSpacing : Int) : Int :=
  let ticksInArray := tickCount tickSpacing
  let start := Int.fdiv tickIndex ticksInArray
  let start' := if tickIndex < 0 ∧ Int.tmod tickIndex ticksInArray ≠ 0 then start - 1 else start
  start' * ticksInArray

/-- Source `max_tick_in_tickarray_bitmap`. -/
def maxTickInTickarrayBitmap (tickSpacing : Int) : Int :=
  tickSpacing * TICK_ARRAY_SIZE * TICK_ARRAY_BITMAP_SIZE

/-- Bit length `x.toString(2).length` of a positive BigInt (callers guard the zero case). -/
def bitLength (x : Nat) : Nat := Nat.size x

/-- Source `mostSignificantBit`: `TOTAL_BITS - bitLength` for non-zero input. -/
def mostSignificantBit (x : Nat) : Option Int :=
  if x = 0 then none else some ((TOTAL_BITS : Int) - bitLength x)

/-- Source `leastSignificantBit`: index of the lowest set bit for non-zero input;
`x & -x` on a BigInt isolates that bit, which on `Nat` is `x &&& (x ^^^ (x - 1))`. -/
def leastSignificantBit (x : Nat) : Option Int :=
  if x = 0 then none else some ((bitLength (x &&& (x ^^^ (x - 1))) : Int) - 1)

/-- Source `u1024_from_list`: OR each 64-bit word shifted by `64*i`, then mask. -/
def orShifted : List Nat → Nat → Nat
  | [], _ => 0
  | w :: rest, shift => (w <<< shift) ||| orShifted rest (shift + 64)

def u1024FromList (words : List Nat) : Nat := orShifted words 0 &&& U1024_MASK

/-- Source `next_initialized_tick_array_start_index_in_bitmap`: scan the inline
1024-bit bitmap one tick-count step beyond the last start index.  The shift
amount `TOTAL_BITS - bitPos - 1` is non-negative for every input (the in-range
check bounds `bitPos` by 1023), so the `toNat` clamp is never exercised. -/
def nextInitializedTickArrayStartIndexInBitmap (bitMap : Nat)
    (lastTickArrayStartIndex tickSpacing : Int) (zeroForOne : Bool) : Bool × Int :=
  let bitMap' := bitMap &&& U1024_MASK
  let tickBoundary := maxTickInTickarrayBitmap tickSpacing
  let nextTickArrayStartIndex :=
    if zeroForOne then lastTickArrayStartIndex - tickCount tickSpacing
    else lastTickArrayStartIndex + tickCount tickSpacing
  if nextTickArrayStartIndex < -tickBoundary ∨ nextTickArrayStartIndex ≥ tickBoundary then
    (false, lastTickArrayStartIndex)
  else
    let multiplier := tickSpacing * TICK_ARRAY_SIZE
    let compressed0 := Int.fdiv nextTickArrayStartIndex multiplier + 512
    let compressed :=
      if nextTickArrayStartIndex < 0 ∧ Int.tmod nextTickArrayStartIndex multiplier ≠ 0 then
        compressed0 - 1
      else compressed0
    let bitPos := compressed.natAbs
    if zeroForOne then
      let shiftAmount := ((TOTAL_BITS : Int) - bitPos - 1).toNat
      let offsetBitMap := (bitMap' <<< shiftAmount) &&& U1024_MASK
      match mostSignificantBit offsetBitMap with
      | some nextBit => (true, ((bitPos : Int) - nextBit - 512) * multiplier)
      | none => (false, -tickBoundary)
    else
      let offsetBitMap := bitMap' >>> bitPos
      match leastSignificantBit offsetBitMap with
      | some nextBit => (true, ((bitPos : Int) + nextBit - 512) * multiplier)
      | none => (false, tickBoundary - tickCount tickSpacing)

/-- Source `get_bitmap`: pick the 8-word extension segment holding `tickIndex`.
A JavaScript out-of-range index yields `undefined`; the embedding models it as an
all-zero segment (in the scan loop's reachable states the offset stays within a
14-entry extension, so the two agree there). -/
def getBitmap (tickIndex tickSpacing : Int)
    (positiveBitmap negativeBitmap : List (List Nat)) : Int × List Nat :=
  let ticksInOneBitmap := tickSpacing * TICK_ARRAY_SIZE * TICK_ARRAY_BITMAP_SIZE
  let offset0 := Int.fdiv |tickIndex| ticksInOneBitmap - 1
  let offset :=
    if tickIndex < 0 ∧ Int.tmod |tickIndex| ticksInOneBitmap = 0 then offset0 - 1 else offset0
  if tickIndex < 0 then (offset, negativeBitmap.getD offset.toNat [])
  else (offset, positiveBitmap.getD offset.toNat [])

/-- Reconstruction `u512 |= segment[i] << (7 - i)*64` used by the extension scans. -/
def u512FromSegments (segments : List Nat) : Nat :=
  (List.range segments.length).foldl
    (fun acc i => acc ||| (segments.getD i 0 <<< (((7 : Int) - i).toNat * 64))) 0

/-- Local helper `calc_tick_array_offset_in_bitmap` of the extension scans. -/
def calcTickArrayOffsetInBitmap (tickArrayStartIndex tickSpacing : Int) : Int :=
  let m := Int.tmod |tickArrayStartIndex| (tickSpacing * TICK_ARRAY_SIZE * TICK_ARRAY_BITMAP_SIZE)
  let offset0 := Int.fdiv m (TICK_ARRAY_SIZE * tickSpacing)
  if tickArrayStartIndex < 0 ∧ m ≠ 0 then TICK_ARRAY_BITMAP_SIZE - offset0 else offset0

/-- Local helper `get_bitmap_tick_boundary`: the 512-array tick range holding the index. -/
def getBitmapTickBoundary (tickArrayStartIndex tickSpacing : Int) : Int × Int :=
  let ticksInOneBitmap := tickSpacing * TICK_ARRAY_SIZE * TICK_ARRAY_BITMAP_SIZE
  let m0 := Int.fdiv |tickArrayStartIndex| ticksInOneBitmap
  let m :=
    if tickArrayStartIndex < 0 ∧ Int.tmod |tickArrayStartIndex| ticksInOneBitmap ≠ 0 then m0 + 1
    else m0
  let minValue := ticksInOneBitmap * m
  if tickArrayStartIndex < 0 then (-minValue, -minValue + ticksInOneBitmap)
  else (minValue, minValue + ticksInOneBitmap)

/-- Source `next_initialized_tick_array_in_bitmap`: scan a single 512-bit extension
segment from the given start index in the given direction. -/
def nextInitializedTickArrayInBitmap (tickarrayBitmap : List Nat)
    (nextTickArrayStartIndex tickSpacing : Int) (zeroForOne : Bool) : Bool × Int :=
  let bounds := getBitmapTickBoundary nextTickArrayStartIndex tickSpacing
  let tickArrayOffset := calcTickArrayOffsetInBitmap nextTickArrayStartIndex tickSpacing
  let u512TickarrayBitmap := u512FromSegments tickarrayBitmap
  if zeroForOne then
    let shiftAmount := ((TICK_ARRAY_BITMAP_SIZE : Int) - 1 - tickArrayOffset).toNat
    let offsetBitMap := (u512TickarrayBitmap <<< shiftAmount) &&& (2 ^ 512 - 1)
    if offsetBitMap = 0 then (false, bounds.1)
    else
      let nextBit : Int := 512 - bitLength offsetBitMap
      (true, nextTickArrayStartIndex - nextBit * tickCount tickSpacing)
  else
    let offsetBitMap := u512TickarrayBitmap >>> tickArrayOffset.toNat
    if offsetBitMap = 0 then (false, bounds.2 - tickCount tickSpacing)
    else
      let nextBit : Int := (bitLength (offsetBitMap &&& (offsetBitMap ^^^ (offsetBitMap - 1))) : Int) - 1
      (true, nextTickArrayStartIndex + nextBit * tickCount tickSpacing)

/-- Source `next_initialized_tick_array_from_one_bitmap`: step one tick-count unit
and test the extension segment at the new index. -/
def nextInitializedTickArrayFromOneBitmap (lastTickArrayStartIndex tickSpacing : Int)
    (zeroForOne : Bool) (positiveBitmap negativeBitmap : List (List Nat)) : Bool × Int :=
  let multiplier := tickCount tickSpacing
  let nextTickArrayStartIndex :=
    if zeroForOne then lastTickArrayStartIndex - multiplier
    else lastTickArrayStartIndex + multiplier
  let minTickArrayStartIndex := getArrayStartIndex MIN_TICK tickSpacing
  let maxTickArrayStartIndex := getArrayStartIndex MAX_TICK tickSpacing
  if nextTickArrayStartIndex < minTickArrayStartIndex ∨
      nextTickArrayStartIndex > maxTickArrayStartIndex then
    (false, nextTickArrayStartIndex)
  else
    let bm := (getBitmap nextTickArrayStartIndex tickSpacing positiveBitmap negativeBitmap).2
    nextInitializedTickArrayInBitmap bm nextTickArrayStartIndex tickSpacing zeroForOne

/-- One iteration of the `while (true)` body of `nextInitializedTickArrayStartIndex`
(part_001 lines 255-290): inline-bitmap scan, then extension scan, then the
`MIN_TICK`/`MAX_TICK` exit test.  `Sum.inl` is a return (`some` = found index,
`none` = the source's `null`), `Sum.inr` carries the updated last start index. -/
def nextInitializedTickArrayStep (tickArrayBitmap : List Nat)
    (positiveBitmap negativeBitmap : List (List Nat)) (tickSpacing : Int) (zeroForOne : Bool)
    (lastTickArrayStartIndex : Int) : Sum (Option Int) Int :=
  let r1 := nextInitializedTickArrayStartIndexInBitmap (u1024FromList tickArrayBitmap)
    lastTickArrayStartIndex tickSpacing zeroForOne
  if r1.1 then Sum.inl (some r1.2)
  else
    let r2 := nextInitializedTickArrayFromOneBitmap r1.2 tickSpacing zeroForOne
      positiveBitmap negativeBitmap
    if r2.1 then Sum.inl (some r2.2)
    else if r2.2 < MIN_TICK ∨ r2.2 > MAX_TICK then Sum.inl none
    else Sum.inr r2.2

/-- The unbounded `while (true)` loop, run on an explicit fuel budget;
`none` means the fuel ran out before the loop returned. -/
def nextInitializedTickArrayLoop (tickArrayBitmap : List Nat)
    (positiveBitmap negativeBitmap : List (List Nat)) (tickSpacing : Int)
    (zeroForOne : Bool) : Nat → Int → Option (Option Int)
  | 0, _ => none
  | fuel + 1, last =>
      match nextInitializedTickArrayStep tickArrayBitmap positiveBitmap negativeBitmap
        tickSpacing zeroForOne last with
      | Sum.inl r => some r
      | Sum.inr last' =>
          nextInitializedTickArrayLoop tickArrayBitmap positiveBitmap negativeBitmap
            tickSpacing zeroForOne fuel last'

/-- Fuel that provably outlasts the loop for the given arguments. -/
def niaFuel (lastTickArrayStartIndex tickSpacing : Int) : Nat :=
  (getArrayStartIndex lastTickArrayStartIndex tickSpacing - MIN_TICK).toNat +
    (MAX_TICK - getArrayStartIndex lastTickArrayStartIndex tickSpacing).toNat + 2

/-- Source `nextInitializedTickArrayStartIndex`: aligns the last start index with
`getArrayStartIndex` and runs the alternating scan loop. -/
def nextInitializedTickArrayStartIndex (tickArrayBitmap : List Nat)
    (positiveBitmap negativeBitmap : List (List Nat))
    (lastTickArrayStartIndex tickSpacing : Int) (zeroForOne : Bool)
    (fuel : Nat) : Option (Option Int) :=
  nextInitializedTickArrayLoop tickArrayBitmap positiveBitmap negativeBitmap tickSpacing
    zeroForOne fuel (getArrayStartIndex lastTickArrayStartIndex tickSpacing)

/-! ## Transaction confirmation polling (src/unnamed/part_000 lines 29-63;
src/pumpfun-copy-trading/utils.ts lines 25-54 branches identically) -/

/-- Outcome of one `getTransaction` poll: found with the on-chain `meta.err`
field (`none` = no error), not yet visible, or the RPC call itself threw. -/
inductive PollResult where
  | found (err : Option Nat)
  | notFound
  | rpcError
deriving DecidableEq

/-- True when the poll result ends the loop (transaction found with meta). -/
def PollResult.isTerminal : PollResult → Bool
  | .found _ => true
  | _ => false

/-- Body of `confirmTxn`'s `while (retries < maxRetries)` loop.  `lookup n` is the
result of the `n`-th poll; the second component counts polls actually performed. -/
def confirmTxnLoop (lookup : Nat → PollResult) (maxRetries retries polls : Nat) :
    Option Bool × Nat :=
  if retries < maxRetries then
    match lookup polls with
    | .found none => (some true, polls + 1)
    | .found (some _) => (some false, polls + 1)
    | .notFound => confirmTxnLoop lookup maxRetries (retries + 1) (polls + 1)
    | .rpcError => confirmTxnLoop lookup maxRetries (retries + 1) (polls + 1)
  else (none, polls)
termination_by maxRetries - retries

/-- Source `confirmTxn(signature, maxRetries, retryInterval)`: the retry counter starts
at 1.  Returns the source's `true`/`false`/`null` as `Option Bool`, paired with
the number of polls performed. -/
def confirmTxn (lookup : Nat → PollResult) (maxRetries : Nat) : Option Bool × Nat :=
  confirmTxnLoop lookup maxRetries 1 0

/-! ## Copy-trading orchestrator (src/unnamed/part_003) -/

/-- JavaScript `hay.includes(needle)` over character lists. -/
def containsSub (needle : List Char) : List Char → Bool
  | [] => List.isPrefixOf needle []
  | c :: rest => List.isPrefixOf needle (c :: rest) || containsSub needle rest

/-- JavaScript `String.prototype.includes`. -/
def strIncludes (s needle : String) : Bool := containsSub needle.toList s.toList

/-- Lazy capture `(.*?)"`: the shortest run of characters up to a closing quote;
fails when no closing quote follows. -/
def captureLazy : List Char → Option (List Char)
  | [] => none
  | c :: rest => if c = '"' then some [] else (captureLazy rest).map (c :: ·)

/-- Leftmost match of the pattern `lit(.*?)"`: at each position try the literal
and a quote-terminated capture, backtracking to later positions on failure. -/
def findCaptureAfter (lit : List Char) : List Char → Option (List Char)
  | [] => none
  | c :: rest =>
      match (if List.isPrefixOf lit (c :: rest) then captureLazy ((c :: rest).drop lit.length)
             else none) with
      | some v => some v
      | none => findCaptureAfter lit rest

/-- Pattern strings of `extractTransactionDetails` (part_003 lines 202-228). -/
def typeBuyPattern : List Char := ("\"type\":\"buy\"").toList
def typeSellPattern : List Char := ("\"type\":\"sell\"").toList
def makerAddressPattern : List Char := ("\"maker_address\":\"").toList
def tokenNamePattern : List Char := ("\"tokenName\":\"").toList
def tokenAddressPattern : List Char := ("\"tokenAddress\":\"").toList
def pairAddressPattern : List Char := ("\"pair_address\":\"").toList
def protocolPattern : List Char := ("\"protocol\":\"").toList

/-- Leftmost match of `/"type":"(buy|sell)"/`. -/
def findTypeValue : List Char → Option String
  | [] => none
  | c :: rest =>
      if List.isPrefixOf typeBuyPattern (c :: rest) then some "buy"
      else if List.isPrefixOf typeSellPattern (c :: rest) then some "sell"
      else findTypeValue rest

/-- Fields of the parsed trade event that the websocket handler destructures
(the remaining numeric fields of the source record never reach the handler). -/
structure TransactionDetails where
  transaction_type : Option String
  maker_address : Option String
  token_name : Option String
  token_address : Option String
  pair_address : Option String
  protocol : Option String
deriving DecidableEq

/-- Source `extractTransactionDetails`: independent per-field pattern matches;
a missing field is simply absent. -/
def extractTransactionDetails (msg : String) : TransactionDetails :=
  let s := msg.toList
  { transaction_type := findTypeValue s
    maker_address := (findCaptureAfter makerAddressPattern s).map String.mk
    token_name := (findCaptureAfter tokenNamePattern s).map String.mk
    token_address := (findCaptureAfter tokenAddressPattern s).map String.mk
    pair_address := (findCaptureAfter pairAddressPattern s).map String.mk
    protocol := (findCaptureAfter protocolPattern s).map String.mk }

/-- Source `filterMessages`: `new RegExp('.*(' + trackWallets + ').*', 's')`
matches a message exactly when the (metacharacter-free) tracked-wallet text
occurs in it, and `match[0]` is then the whole message, which is what is fed to
`extractTransactionDetails`. -/
def filterMessages (trackWallets msg : String) : Option TransactionDetails :=
  if strIncludes msg trackWallets then some (extractTransactionDetails msg) else none

/-- Environment-derived orchestrator configuration (part_003 lines 46-53). -/
structure OrchConfig where
  trackWallets : String
  maxSlippage : ℚ
  solIn : ℚ
  maxSolSpend : ℚ
  allowRebuy : Bool
  maxBuyAttempts : Int

/-- Mutable session state of the orchestrator (part_003 lines 55-58). -/
structure OrchState where
  buyList : List String
  spent : ℚ
deriving DecidableEq

/-- Outcome of one underlying protocol buy call (`buyRaydium`/`buyPumpFun`):
resolved `true`, resolved `false`, or rejected (caught by the `catch` block). -/
inductive BuyOutcome where
  | success
  | failure
  | exception
deriving DecidableEq

/-- Record of one invocation of an underlying protocol buy operation. -/
structure BuyCall where
  dex : String
  address : String
  solAmount : ℚ
deriving DecidableEq

/-- Body of `buyToken`'s retry loop (part_003 lines 230-267), on explicit fuel.
Returns the updated session state, the underlying buy calls made (in order) and
the next index into the buy-outcome oracle.  Each non-breaking iteration
increments `attempts`, so fuel `maxBuyAttempts.toNat + 2` always outlasts it. -/
def buyTokenLoop (cfg : OrchConfig) (oracle : Nat → BuyOutcome)
    (dex address : String) (solAmount : ℚ) :
    Nat → Nat → OrchState → Nat → OrchState × List BuyCall × Nat
  | 0, _, st, k => (st, [], k)
  | fuel + 1, attempts, st, k =>
      if cfg.allowRebuy = false ∧ address ∈ st.buyList then (st, [], k)
      else if (attempts : Int) > cfg.maxBuyAttempts then (st, [], k)
      else
        let st' : OrchState := ⟨st.buyList ++ [address], st.spent⟩
        let call : BuyCall := ⟨dex, address, solAmount⟩
        match oracle k with
        | .success => (⟨st'.buyList, st'.spent + solAmount⟩, [call], k + 1)
        | .failure =>
            let r := buyTokenLoop cfg oracle dex address solAmount fuel (attempts + 1) st' (k + 1)
            (r.1, call :: r.2.1, r.2.2)
        | .exception =>
            let r := buyTokenLoop cfg oracle dex address solAmount fuel (attempts + 1) st' (k + 1)
            (r.1, call :: r.2.1, r.2.2)

/-- Source `buyToken` (the `name` and `slippage` arguments only feed log lines
and the underlying call, which the oracle abstracts). -/
def buyToken (cfg : OrchConfig) (oracle : Nat → BuyOutcome) (dex address : String)
    (solAmount : ℚ) (st : OrchState) (k : Nat) : OrchState × List BuyCall × Nat :=
  buyTokenLoop cfg oracle dex address solAmount (cfg.maxBuyAttempts.toNat + 2) 0 st k

/-- Log lines of the websocket message handler that the claims observe. -/
inductive LogEvent where
  | alreadySpent
  | notSupported
deriving DecidableEq

/-- The action selected from the handler's protocol map (`Raydium V4` has no buy
entry: that line is commented out in the source). -/
inductive DispatchAction where
  | buyPumpFun (name address : String)
  | sellPumpFun (name address : String)
  | sellRaydium (name pairAddress : String)
deriving DecidableEq

/-- Result of handling one websocket message. -/
structure HandlerResult where
  st : OrchState
  buyCalls : List BuyCall
  ctr : Nat
  logs : List LogEvent
  action : Option DispatchAction
deriving DecidableEq

/-- The `ws.on('message')` handler (part_003 lines 363-393): budget gate first,
then `filterMessages`, the maker re-validation (`!maker_address` also rejects the
empty string, which is falsy), then the protocol map.  `sellToken` touches
neither `buyList` nor `spent` and performs no underlying buy calls, so a sell
dispatch leaves the session state unchanged here. -/
def handleMessage (cfg : OrchConfig) (oracle : Nat → BuyOutcome) (st : OrchState)
    (k : Nat) (msg : String) : HandlerResult :=
  if cfg.maxSolSpend ≤ st.spent then ⟨st, [], k, [.alreadySpent], none⟩
  else
    match filterMessages cfg.trackWallets msg with
    | none => ⟨st, [], k, [], none⟩
    | some d =>
        match d.maker_address with
        | none => ⟨st, [], k, [], none⟩
        | some m =>
            if m = "" then ⟨st, [], k, [], none⟩
            else if strIncludes m cfg.trackWallets = false then ⟨st, [], k, [], none⟩
            else if d.protocol = some "Pump V1" ∧ d.transaction_type = some "buy" then
              let r := buyToken cfg oracle "pf" (d.token_address.getD "") cfg.solIn st k
              ⟨r.1, r.2.1, r.2.2, [],
                some (.buyPumpFun (d.token_name.getD "") (d.token_address.getD ""))⟩
            else if d.protocol = some "Pump V1" ∧ d.transaction_type = some "sell" then
              ⟨st, [], k, [], some (.sellPumpFun (d.token_name.getD "") (d.token_address.getD ""))⟩
            else if d.protocol = some "Raydium V4" ∧ d.transaction_type = some "sell" then
              ⟨st, [], k, [], some (.sellRaydium (d.token_name.getD "") (d.pair_address.getD ""))⟩
            else ⟨st, [], k, [.notSupported], none⟩

/-- Sequential processing of a list of buy signals `(dex, address)` by `buyToken`,
threading the session state and the oracle index. -/
def runBuySignals (cfg : OrchConfig) (oracle : Nat → BuyOutcome) :
    List (String × String) → OrchState → Nat → OrchState × List BuyCall
  | [], st, _ => (st, [])
  | (dex, address) :: rest, st, k =>
      let r := buyToken cfg oracle dex address cfg.solIn st k
      let r' := runBuySignals cfg oracle rest r.1 r.2.2
      (r'.1, r.2.1 ++ r'.2)

/-- Number of underlying buy calls that targeted `address`. -/
def callsFor (address : String) (calls : List BuyCall) : Nat :=
  (calls.filter (fun c => c.address = address)).length

/-! ## Theorems -/

/-- Bound used for both `Math.round` (`jsRound`) and the invariant claims:
the rounded value is within one half of the exact value. -/
theorem abs_jsRound_sub_le (x : ℚ) : |jsRound x - x| ≤ 1 / 2 := by
  rw [abs_le]
  constructor
  · have h := Int.lt_floor_add_one (x + 1 / 2)
    unfold jsRound
    linarith
  · have h := Int.floor_le (x + 1 / 2)
    unfold jsRound
    linarith

/-- C1: the spec says `getArrayStartIndex` floor-divides toward negative infinity
and so maps tick −1 at spacing 60 to −3600, the start of the array containing it.
The source instead applies `Math.floor` (already a floor) and then subtracts one
more array for negative ticks with a non-zero remainder, landing on −7200, an
array that does not contain tick −1; a tick exactly on a negative boundary
(−3600) is unaffected. -/
theorem C1_getArrayStartIndex_negative_tick :
    getArrayStartIndex (-1) 60 = -7200 ∧ getArrayStartIndex (-1) 60 ≠ -3600 ∧
      getArrayStartIndex (-3600) 60 = -3600 := by
  refine ⟨by decide, by decide, by decide⟩

/-- C3: for positive reserves and input, the AMM-family `solForTokens` with the
default 0.25 swap fee equals
`baseReserve - baseReserve*quoteReserve/(quoteReserve + solAmount*(1 - fee/100))`
rounded to nine decimal places. -/
theorem C3_solForTokens_formula (solAmount baseReserve quoteReserve : ℚ)
    (hs : 0 < solAmount) (hb : 0 < baseReserve) (hq : 0 < quoteReserve) :
    AmmV4.solForTokens solAmount baseReserve quoteReserve 0.25 =
      toFixed9 (baseReserve -
        (baseReserve * quoteReserve) / (quoteReserve + solAmount * (1 - 0.25 / 100))) := by
  unfold AmmV4.solForTokens
  have h : solAmount - solAmount * ((0.25 : ℚ) / 100) = solAmount * (1 - 0.25 / 100) := by
    ring
  rw [h]

/-- Witness for C3 at `solAmount = 1`, `baseReserve = 1000000`, `quoteReserve = 100`. -/
theorem C3_solForTokens_formula_witness :
    AmmV4.solForTokens 1 1000000 100 0.25 =
      toFixed9 (1000000 - (1000000 * 100) / (100 + 1 * (1 - 0.25 / 100))) :=
  C3_solForTokens_formula 1 1000000 100 (by norm_num) (by norm_num) (by norm_num)

/-- Little-endian decoding inverts `leBytes` up to the width's modulus. -/
theorem leDecode_leBytes (w n : Nat) : leDecode (leBytes w n) = n % 256 ^ w := by
  induction w generalizing n with
  | zero => simp [leBytes, leDecode, Nat.mod_one]
  | succ w ih =>
      have hsplit : n % (256 * 256 ^ w) = n % 256 + 256 * (n / 256 % 256 ^ w) :=
        Nat.mod_mul
      calc leDecode (leBytes (w + 1) n) = n % 256 + 256 * leDecode (leBytes w (n / 256)) := rfl
        _ = n % 256 + 256 * (n / 256 % 256 ^ w) := by rw [ih]
        _ = n % 256 ^ (w + 1) := by rw [pow_succ, mul_comm (256 ^ w) 256, hsplit]

theorem leBytes_length (w n : Nat) : (leBytes w n).length = w := by
  induction w generalizing n with
  | zero => rfl
  | succ w ih => simp [leBytes, ih]

/-- C4: for every `n < 2^128`, splitting into two little-endian 64-bit words (low
word first) and reconstructing `high * 2^64 + low` returns `n`. -/
theorem C4_decodeUInt128_encodeUInt128 (n : Nat) (h : n < 2 ^ 128) :
    decodeUInt128 (encodeUInt128 n) = n := by
  have hlow : (leBytes 8 (n % 2 ^ 64)).length = 8 := leBytes_length 8 _
  have htake : (leBytes 8 (n % 2 ^ 64) ++ leBytes 8 (n / 2 ^ 64)).take 8 =
      leBytes 8 (n % 2 ^ 64) := List.take_left' hlow
  have hdrop : (leBytes 8 (n % 2 ^ 64) ++ leBytes 8 (n / 2 ^ 64)).drop 8 =
      leBytes 8 (n / 2 ^ 64) := List.drop_left' hlow
  have hdivlt : n / 2 ^ 64 < 2 ^ 64 := by
    apply Nat.div_lt_of_lt_mul
    calc n < 2 ^ 128 := h
      _ = 2 ^ 64 * 2 ^ 64 := by norm_num
  simp only [decodeUInt128, encodeUInt128, htake, hdrop,
    List.take_of_length_le (le_of_eq (leBytes_length 8 (n / 2 ^ 64))),
    leDecode_leBytes]
  have h256 : (256 : Nat) ^ 8 = 2 ^ 64 := by norm_num
  rw [h256, Nat.mod_mod_of_dvd _ (dvd_refl _), Nat.mod_eq_of_lt hdivlt]
  rw [Nat.mul_comm]
  exact Nat.div_add_mod n (2 ^ 64)

/-- Witness for C4 at `n = 2^128 - 1`. -/
theorem C4_decodeUInt128_encodeUInt128_witness :
    decodeUInt128 (encodeUInt128 (2 ^ 128 - 1)) = 2 ^ 128 - 1 :=
  C4_decodeUInt128_encodeUInt128 (2 ^ 128 - 1) (by norm_num)

/-- C5: for positive reserves and spend, the bonding-curve `solForTokens` output
satisfies the single-call constant-product invariant
`tokenReserves*solReserves = (tokenReserves - tokensOut)*(solReserves + solSpent)`
up to the final `Math.round`: the two sides differ by at most half of the new
SOL reserve. -/
theorem C5_pump_solForTokens_invariant (solSpent solReserves tokenReserves : ℚ)
    (h1 : 0 < solSpent) (h2 : 0 < solReserves) (h3 : 0 < tokenReserves) :
    |tokenReserves * solReserves -
        (tokenReserves - Pump.solForTokens solSpent solReserves tokenReserves) *
          (solReserves + solSpent)| ≤ (solReserves + solSpent) / 2 := by
  have hd : (0 : ℚ) < solReserves + solSpent := by linarith
  have hd' : solReserves + solSpent ≠ 0 := ne_of_gt hd
  set e : ℚ := tokenReserves - (solReserves * tokenReserves) / (solReserves + solSpent) with he
  have hkey : tokenReserves * solReserves = (tokenReserves - e) * (solReserves + solSpent) := by
    rw [he]
    field_simp
    ring
  have hout : Pump.solForTokens solSpent solReserves tokenReserves = jsRound e := rfl
  have hround : |jsRound e - e| ≤ 1 / 2 := abs_jsRound_sub_le e
  rw [hout, hkey]
  have hrw : (tokenReserves - e) * (solReserves + solSpent) -
      (tokenReserves - jsRound e) * (solReserves + solSpent) =
      (jsRound e - e) * (solReserves + solSpent) := by ring
  rw [hrw, abs_mul, abs_of_pos hd]
  calc |jsRound e - e| * (solReserves + solSpent)
      ≤ 1 / 2 * (solReserves + solSpent) := by
        exact mul_le_mul_of_nonneg_right hround (le_of_lt hd)
    _ = (solReserves + solSpent) / 2 := by ring

/-- Witness for C5 at `solSpent = 1`, `solReserves = 30`, `tokenReserves = 10^9`. -/
theorem C5_pump_solForTokens_invariant_witness :
    |(1000000000 : ℚ) * 30 -
        (1000000000 - Pump.solForTokens 1 30 1000000000) * (30 + 1)| ≤ (30 + 1) / 2 :=
  C5_pump_solForTokens_invariant 1 30 1000000000 (by norm_num) (by norm_num) (by norm_num)

/-- C6: for every in-range amount and either direction, the CLMM swap instruction
data is exactly 41 bytes: the discriminator `2b04ed0b1ac91e62`, the 8-byte
little-endian amount, an 8-byte zero other-amount-threshold (unconditionally
zero), 16 zero bytes, and a final byte 1 (the is-base-input flag). -/
theorem C6_makeClmmSwapInstruction_data (amount : Nat) (action : Direction)
    (h : amount < 2 ^ 64) :
    ∃ l, makeClmmSwapInstructionData amount action = some l ∧
      l = clmmSwapDiscriminator ++ leBytes 8 amount ++ List.replicate 8 0 ++
        List.replicate 16 0 ++ [1] ∧
      l.length = 41 := by
  refine ⟨_, ?_, rfl, ?_⟩
  · unfold makeClmmSwapInstructionData packU64
    rw [if_pos h]
    norm_num
    rfl
  · simp [clmmSwapDiscriminator, leBytes_length]

/-- Witness for C6 at `amount = 5`, buy direction. -/
theorem C6_makeClmmSwapInstruction_data_witness :
    ∃ l, makeClmmSwapInstructionData 5 Direction.buy = some l ∧
      l = clmmSwapDiscriminator ++ leBytes 8 5 ++ List.replicate 8 0 ++
        List.replicate 16 0 ++ [1] ∧
      l.length = 41 :=
  C6_makeClmmSwapInstruction_data 5 Direction.buy (by norm_num)

/-- Unfolding equation for the confirmation loop. -/
theorem confirmTxnLoop_eq (lookup : Nat → PollResult) (maxRetries retries polls : Nat) :
    confirmTxnLoop lookup maxRetries retries polls =
      if retries < maxRetries then
        match lookup polls with
        | .found none => (some true, polls + 1)
        | .found (some _) => (some false, polls + 1)
        | .notFound => confirmTxnLoop lookup maxRetries (retries + 1) (polls + 1)
        | .rpcError => confirmTxnLoop lookup maxRetries (retries + 1) (polls + 1)
      else (none, polls) := by
  conv_lhs => rw [confirmTxnLoop]

/-- One non-terminal poll advances both counters. -/
theorem confirmTxnLoop_skip (lookup : Nat → PollResult) (maxRetries retries polls : Nat)
    (h : retries < maxRetries) (hnt : (lookup polls).isTerminal = false) :
    confirmTxnLoop lookup maxRetries retries polls =
      confirmTxnLoop lookup maxRetries (retries + 1) (polls + 1) := by
  rw [confirmTxnLoop_eq, if_pos h]
  cases hlook : lookup polls with
  | found e => rw [hlook] at hnt; simp [PollResult.isTerminal] at hnt
  | notFound => rfl
  | rpcError => rfl

/-- Skipping `k` non-terminal polls in a row. -/
theorem confirmTxnLoop_shift (lookup : Nat → PollResult) (maxRetries : Nat) :
    ∀ k retries polls, retries + k < maxRetries →
      (∀ j, j < k → (lookup (polls + j)).isTerminal = false) →
      confirmTxnLoop lookup maxRetries retries polls =
        confirmTxnLoop lookup maxRetries (retries + k) (polls + k) := by
  intro k
  induction k with
  | zero => intro retries polls _ _; rfl
  | succ k ih =>
      intro retries polls hlt hnt
      have h0 : (lookup polls).isTerminal = false := by
        have := hnt 0 (Nat.succ_pos k)
        simpa using this
      rw [confirmTxnLoop_skip lookup maxRetries retries polls (by omega) h0]
      have := ih (retries + 1) (polls + 1) (by omega)
        (fun j hj => by
          have := hnt (j + 1) (by omega)
          simpa [Nat.add_assoc, Nat.add_comm 1 j] using this)
      rw [this]
      congr 1 <;> omega

/-- Permanently non-terminal polling exhausts the retry budget. -/
theorem confirmTxnLoop_nonterminal (lookup : Nat → PollResult) (maxRetries : Nat)
    (hnt : ∀ n, (lookup n).isTerminal = false) :
    ∀ d retries polls, maxRetries - retries = d →
      confirmTxnLoop lookup maxRetries retries polls = (none, polls + d) := by
  intro d
  induction d with
  | zero =>
      intro retries polls hd
      rw [confirmTxnLoop_eq, if_neg (by omega), Nat.add_zero]
  | succ d ih =>
      intro retries polls hd
      rw [confirmTxnLoop_skip lookup maxRetries retries polls (by omega) (hnt polls)]
      rw [ih (retries + 1) (polls + 1) (by omega)]
      congr 1
      omega

/-- C2: `confirmTxn` returns `true` as soon as a poll finds the transaction with a
null error, returns `false` immediately (no further polls) when a poll finds it
with a non-null error, and for a lookup with no terminal result returns the
unknown sentinel `none` after exactly `maxRetries - 1` polls, because the retry
counter starts at 1. -/
theorem C2_confirmTxn_state_machine (lookup : Nat → PollResult) (maxRetries : Nat) :
    ((∀ n, (lookup n).isTerminal = false) →
      confirmTxn lookup maxRetries = (none, maxRetries - 1)) ∧
    (∀ k, k + 1 < maxRetries → (∀ j, j < k → (lookup j).isTerminal = false) →
      (lookup k = .found none → confirmTxn lookup maxRetries = (some true, k + 1)) ∧
      (∀ e, lookup k = .found (some e) →
        confirmTxn lookup maxRetries = (some false, k + 1))) := by
  constructor
  · intro hnt
    unfold confirmTxn
    rw [confirmTxnLoop_nonterminal lookup maxRetries hnt (maxRetries - 1) 1 0 rfl]
    simp
  · intro k hk hnt
    unfold confirmTxn
    rw [confirmTxnLoop_shift lookup maxRetries k 1 0 (by omega)
      (fun j hj => by simpa using hnt j hj)]
    rw [confirmTxnLoop_eq, if_pos (by omega)]
    rw [Nat.zero_add, Nat.add_comm 1 k]
    constructor
    · intro hfound
      rw [hfound]
    · intro e hfound
      rw [hfound]

/-- Witness for C2: a lookup that is never terminal, default `maxRetries = 20`:
unknown after exactly 19 polls. -/
theorem C2_confirmTxn_state_machine_witness :
    confirmTxn (fun _ => PollResult.notFound) 20 = (none, 19) :=
  (C2_confirmTxn_state_machine (fun _ => PollResult.notFound) 20).1 (fun _ => rfl)

/-- C7: whenever cumulative spend has reached `MAX_SOL_SPEND` at the moment a
websocket message arrives, the handler logs the skip line and returns before
filtering or dispatching: the state is unchanged and zero underlying buy calls
result from the message. -/
theorem C7_budget_gate (cfg : OrchConfig) (oracle : Nat → BuyOutcome) (st : OrchState)
    (k : Nat) (msg : String) (h : cfg.maxSolSpend ≤ st.spent) :
    handleMessage cfg oracle st k msg = ⟨st, [], k, [.alreadySpent], none⟩ := by
  unfold handleMessage
  rw [if_pos h]

/-- Witness for C7: budget 0 already spent, arbitrary message. -/
theorem C7_budget_gate_witness :
    handleMessage ⟨"w", 5, 1, 0, true, 3⟩ (fun _ => BuyOutcome.success) ⟨[], 0⟩ 0 "m" =
      ⟨⟨[], 0⟩, [], 0, [LogEvent.alreadySpent], none⟩ :=
  C7_budget_gate ⟨"w", 5, 1, 0, true, 3⟩ (fun _ => BuyOutcome.success) ⟨[], 0⟩ 0 "m"
    (by norm_num)

/-- Empty needle: `includes('')` holds for every haystack. -/
theorem containsSub_nil (l : List Char) : containsSub [] l = true := by
  cases l <;> simp [containsSub, List.isPrefixOf]

/-- JavaScript `s.includes('')` is true for every string `s`. -/
theorem strIncludes_empty (s : String) : strIncludes s "" = true := by
  unfold strIncludes
  exact containsSub_nil s.toList

/-- C10: with `TRACK_WALLETS` unset or empty, the orchestrator's filter regex
`.*().*` matches every message, the maker re-validation
`maker_address.includes(trackWallets)` is vacuously true for every address, and
every parsed message carrying a maker address and a recognized protocol and
transaction type reaches a trade dispatch — the empty configuration tracks
every wallet rather than none. -/
theorem C10_empty_trackWallets (cfg : OrchConfig) (htw : cfg.trackWallets = "") :
    (∀ msg, filterMessages cfg.trackWallets msg = some (extractTransactionDetails msg)) ∧
    (∀ addr : String, strIncludes addr cfg.trackWallets = true) ∧
    (∀ oracle st k msg m,
      ¬ cfg.maxSolSpend ≤ st.spent →
      (extractTransactionDetails msg).maker_address = some m → m ≠ "" →
      (((extractTransactionDetails msg).protocol = some "Pump V1" ∧
          ((extractTransactionDetails msg).transaction_type = some "buy" ∨
            (extractTransactionDetails msg).transaction_type = some "sell")) ∨
        ((extractTransactionDetails msg).protocol = some "Raydium V4" ∧
          (extractTransactionDetails msg).transaction_type = some "sell")) →
      (handleMessage cfg oracle st k msg).action.isSome = true) := by
  refine ⟨?_, ?_, ?_⟩
  · intro msg
    unfold filterMessages
    rw [htw, strIncludes_empty]
    rfl
  · intro addr
    rw [htw]
    exact strIncludes_empty addr
  · intro oracle st k msg m hspend hm hmne hcombo
    have hfil : filterMessages "" msg = some (extractTransactionDetails msg) := by
      unfold filterMessages
      rw [strIncludes_empty]
      rfl
    rcases hcombo with ⟨hp, hb | hs⟩ | ⟨hp, hs⟩
    · simp [handleMessage, hspend, hfil, hm, hmne, htw, strIncludes_empty, hp, hb]
    · simp [handleMessage, hspend, hfil, hm, hmne, htw, strIncludes_empty, hp, hs]
    · simp [handleMessage, hspend, hfil, hm, hmne, htw, strIncludes_empty, hp, hs]

/-- Witness for C10: empty tracked-wallet config, a message carrying a maker
address, protocol Pump V1 and a buy type dispatches a trade. -/
theorem C10_empty_trackWallets_witness :
    (handleMessage ⟨"", 5, 1, 10, true, 3⟩ (fun _ => BuyOutcome.success) ⟨[], 0⟩ 0
      "\"maker_address\":\"a\"\"protocol\":\"Pump V1\"\"type\":\"buy\"").action.isSome = true :=
  (C10_empty_trackWallets ⟨"", 5, 1, 10, true, 3⟩ rfl).2.2
    (fun _ => BuyOutcome.success) ⟨[], 0⟩ 0
    "\"maker_address\":\"a\"\"protocol\":\"Pump V1\"\"type\":\"buy\"" "a"
    (by norm_num) (by decide) (by decide) (Or.inl ⟨by decide, Or.inl (by decide)⟩)

/-- One-step unfolding of the `buyToken` loop body. -/
theorem buyTokenLoop_succ (cfg : OrchConfig) (oracle : Nat → BuyOutcome)
    (dex address : String) (amt : ℚ) (fuel attempts : Nat) (st : OrchState) (k : Nat) :
    buyTokenLoop cfg oracle dex address amt (fuel + 1) attempts st k =
      if cfg.allowRebuy = false ∧ address ∈ st.buyList then (st, [], k)
      else if (attempts : Int) > cfg.maxBuyAttempts then (st, [], k)
      else
        match oracle k with
        | .success => (⟨st.buyList ++ [address], st.spent + amt⟩, [⟨dex, address, amt⟩], k + 1)
        | .failure =>
            ((buyTokenLoop cfg oracle dex address amt fuel (attempts + 1)
                ⟨st.buyList ++ [address], st.spent⟩ (k + 1)).1,
              (⟨dex, address, amt⟩ : BuyCall) ::
                (buyTokenLoop cfg oracle dex address amt fuel (attempts + 1)
                  ⟨st.buyList ++ [address], st.spent⟩ (k + 1)).2.1,
              (buyTokenLoop cfg oracle dex address amt fuel (attempts + 1)
                ⟨st.buyList ++ [address], st.spent⟩ (k + 1)).2.2)
        | .exception =>
            ((buyTokenLoop cfg oracle dex address amt fuel (attempts + 1)
                ⟨st.buyList ++ [address], st.spent⟩ (k + 1)).1,
              (⟨dex, address, amt⟩ : BuyCall) ::
                (buyTokenLoop cfg oracle dex address amt fuel (attempts + 1)
                  ⟨st.buyList ++ [address], st.spent⟩ (k + 1)).2.1,
              (buyTokenLoop cfg oracle dex address amt fuel (attempts + 1)
                ⟨st.buyList ++ [address], st.spent⟩ (k + 1)).2.2) := rfl

/-- With re-buy disabled, a `buyToken` loop entered with the address already in
the session buy list stops at once: no state change, no underlying calls. -/
theorem buyTokenLoop_mem (cfg : OrchConfig) (oracle : Nat → BuyOutcome)
    (dex address : String) (amt : ℚ) (h : cfg.allowRebuy = false) :
    ∀ fuel attempts st k, address ∈ st.buyList →
      buyTokenLoop cfg oracle dex address amt fuel attempts st k = (st, [], k) := by
  intro fuel attempts st k hm
  cases fuel with
  | zero => rfl
  | succ fuel =>
      simp only [buyTokenLoop]
      rw [if_pos ⟨h, hm⟩]

/-- Every underlying call recorded by a `buyToken` loop targets its own address. -/
theorem buyTokenLoop_calls_address (cfg : OrchConfig) (oracle : Nat → BuyOutcome)
    (dex address : String) (amt : ℚ) :
    ∀ fuel attempts st k c,
      c ∈ (buyTokenLoop cfg oracle dex address amt fuel attempts st k).2.1 →
      c.address = address := by
  intro fuel
  induction fuel with
  | zero => intro attempts st k c hc; simp [buyTokenLoop] at hc
  | succ fuel ih =>
      intro attempts st k c hc
      simp only [buyTokenLoop] at hc
      by_cases h1 : cfg.allowRebuy = false ∧ address ∈ st.buyList
      · rw [if_pos h1] at hc; simp at hc
      · rw [if_neg h1] at hc
        by_cases h2 : (attempts : Int) > cfg.maxBuyAttempts
        · rw [if_pos h2] at hc; simp at hc
        · rw [if_neg h2] at hc
          cases horacle : oracle k with
          | success =>
              rw [horacle] at hc
              simp at hc
              rw [hc]
          | failure =>
              rw [horacle] at hc
              simp at hc
              rcases hc with hc | hc
              · rw [hc]
              · exact ih _ _ _ _ hc
          | exception =>
              rw [horacle] at hc
              simp at hc
              rcases hc with hc | hc
              · rw [hc]
              · exact ih _ _ _ _ hc

/-- The session buy list only grows through a `buyToken` loop. -/
theorem buyTokenLoop_mono (cfg : OrchConfig) (oracle : Nat → BuyOutcome)
    (dex address : String) (amt : ℚ) :
    ∀ fuel attempts st k a, a ∈ st.buyList →
      a ∈ (buyTokenLoop cfg oracle dex address amt fuel attempts st k).1.buyList := by
  intro fuel
  induction fuel with
  | zero => intro attempts st k a ha; exact ha
  | succ fuel ih =>
      intro attempts st k a ha
      simp only [buyTokenLoop]
      by_cases h1 : cfg.allowRebuy = false ∧ address ∈ st.buyList
      · rw [if_pos h1]; exact ha
      · rw [if_neg h1]
        by_cases h2 : (attempts : Int) > cfg.maxBuyAttempts
        · rw [if_pos h2]; exact ha
        · rw [if_neg h2]
          cases horacle : oracle k with
          | success => exact List.mem_append_left _ ha
          | failure => exact ih _ _ _ a (List.mem_append_left _ ha)
          | exception => exact ih _ _ _ a (List.mem_append_left _ ha)

/-- If a `buyToken` loop made any underlying call, its address ends up in the
session buy list (it is pushed before the trade executes). -/
theorem buyTokenLoop_calls_ne_nil (cfg : OrchConfig) (oracle : Nat → BuyOutcome)
    (dex address : String) (amt : ℚ) :
    ∀ fuel attempts st k,
      (buyTokenLoop cfg oracle dex address amt fuel attempts st k).2.1 ≠ [] →
      address ∈ (buyTokenLoop cfg oracle dex address amt fuel attempts st k).1.buyList := by
  intro fuel
  cases fuel with
  | zero => intro attempts st k hne; exact absurd rfl hne
  | succ fuel =>
      intro attempts st k hne
      simp only [buyTokenLoop] at hne ⊢
      by_cases h1 : cfg.allowRebuy = false ∧ address ∈ st.buyList
      · rw [if_pos h1] at hne ⊢; exact absurd rfl hne
      · rw [if_neg h1] at hne ⊢
        by_cases h2 : (attempts : Int) > cfg.maxBuyAttempts
        · rw [if_pos h2] at hne ⊢; exact absurd rfl hne
        · rw [if_neg h2] at hne ⊢
          cases horacle : oracle k with
          | success => exact List.mem_append_right _ (List.mem_singleton_self address)
          | failure =>
              exact buyTokenLoop_mono cfg oracle dex address amt fuel _ _ _ address
                (List.mem_append_right _ (List.mem_singleton_self address))
          | exception =>
              exact buyTokenLoop_mono cfg oracle dex address amt fuel _ _ _ address
                (List.mem_append_right _ (List.mem_singleton_self address))

/-- With re-buy disabled a single `buyToken` invocation performs at most one
underlying call: the address is appended to the buy list before the trade, so a
failed or rejected first attempt blocks the next loop iteration. -/
theorem buyTokenLoop_calls_len_le_one (cfg : OrchConfig) (oracle : Nat → BuyOutcome)
    (dex address : String) (amt : ℚ) (h : cfg.allowRebuy = false) :
    ∀ fuel attempts st k,
      (buyTokenLoop cfg oracle dex address amt fuel attempts st k).2.1.length ≤ 1 := by
  intro fuel attempts st k
  cases fuel with
  | zero => simp [buyTokenLoop]
  | succ fuel =>
      simp only [buyTokenLoop]
      by_cases h1 : cfg.allowRebuy = false ∧ address ∈ st.buyList
      · rw [if_pos h1]; simp
      · rw [if_neg h1]
        by_cases h2 : (attempts : Int) > cfg.maxBuyAttempts
        · rw [if_pos h2]; simp
        · rw [if_neg h2]
          cases horacle : oracle k with
          | success => simp
          | failure =>
              rw [buyTokenLoop_mem cfg oracle dex address amt h fuel _ _ _
                (List.mem_append_right _ (List.mem_singleton_self address))]
              simp
          | exception =>
              rw [buyTokenLoop_mem cfg oracle dex address amt h fuel _ _ _
                (List.mem_append_right _ (List.mem_singleton_self address))]
              simp

/-- Wrapper of `buyTokenLoop_mem` at the `buyToken` entry point. -/
theorem buyToken_mem (cfg : OrchConfig) (oracle : Nat → BuyOutcome) (dex address : String)
    (amt : ℚ) (st : OrchState) (k : Nat) (h : cfg.allowRebuy = false)
    (hm : address ∈ st.buyList) :
    buyToken cfg oracle dex address amt st k = (st, [], k) :=
  buyTokenLoop_mem cfg oracle dex address amt h _ 0 st k hm

/-- With re-buy disabled, a non-negative attempt cap and a fresh address,
`buyToken` performs exactly one underlying call (whatever its outcome) and
leaves the address in the session buy list. -/
theorem buyToken_fresh (cfg : OrchConfig) (oracle : Nat → BuyOutcome) (dex address : String)
    (amt : ℚ) (st : OrchState) (k : Nat) (h : cfg.allowRebuy = false)
    (hmax : 0 ≤ cfg.maxBuyAttempts) (hm : address ∉ st.buyList) :
    (buyToken cfg oracle dex address amt st k).2.1 = [⟨dex, address, amt⟩] ∧
      address ∈ (buyToken cfg oracle dex address amt st k).1.buyList := by
  unfold buyToken
  have hsucc : cfg.maxBuyAttempts.toNat + 2 = (cfg.maxBuyAttempts.toNat + 1) + 1 := rfl
  rw [hsucc, buyTokenLoop_succ]
  rw [if_neg (fun hcontra => hm hcontra.2)]
  rw [if_neg (by omega)]
  cases horacle : oracle k with
  | success =>
      exact ⟨rfl, List.mem_append_right _ (List.mem_singleton_self address)⟩
  | failure =>
      rw [buyTokenLoop_mem cfg oracle dex address amt h _ _ _ _
        (List.mem_append_right _ (List.mem_singleton_self address))]
      exact ⟨rfl, List.mem_append_right _ (List.mem_singleton_self address)⟩
  | exception =>
      rw [buyTokenLoop_mem cfg oracle dex address amt h _ _ _ _
        (List.mem_append_right _ (List.mem_singleton_self address))]
      exact ⟨rfl, List.mem_append_right _ (List.mem_singleton_self address)⟩

theorem callsFor_append (a : String) (x y : List BuyCall) :
    callsFor a (x ++ y) = callsFor a x + callsFor a y := by
  simp [callsFor, List.filter_append]

theorem callsFor_eq_zero (a : String) (calls : List BuyCall)
    (h : ∀ c ∈ calls, c.address ≠ a) : callsFor a calls = 0 := by
  simp only [callsFor, List.length_eq_zero, List.filter_eq_nil]
  intro c hc
  simpa using h c hc

theorem callsFor_le_length (a : String) (calls : List BuyCall) :
    callsFor a calls ≤ calls.length :=
  List.length_filter_le _ _

/-- With re-buy disabled, an address already in the buy list never sees another
underlying call across any sequence of buy signals, and stays in the list. -/
theorem runBuySignals_mem (cfg : OrchConfig) (oracle : Nat → BuyOutcome)
    (h : cfg.allowRebuy = false) (a : String) :
    ∀ signals st k, a ∈ st.buyList →
      callsFor a (runBuySignals cfg oracle signals st k).2 = 0 ∧
        a ∈ (runBuySignals cfg oracle signals st k).1.buyList := by
  intro signals
  induction signals with
  | nil => intro st k hm; exact ⟨rfl, hm⟩
  | cons sig rest ih =>
      obtain ⟨dex, addr⟩ := sig
      intro st k hm
      simp only [runBuySignals]
      have hmono : a ∈ (buyToken cfg oracle dex addr cfg.solIn st k).1.buyList :=
        buyTokenLoop_mono cfg oracle dex addr cfg.solIn _ 0 st k a hm
      have hrest := ih (buyToken cfg oracle dex addr cfg.solIn st k).1
        (buyToken cfg oracle dex addr cfg.solIn st k).2.2 hmono
      refine ⟨?_, hrest.2⟩
      rw [callsFor_append, hrest.1, Nat.add_zero]
      by_cases haddr : addr = a
      · subst haddr
        rw [buyToken_mem cfg oracle dex addr cfg.solIn st k h hm]
        rfl
      · exact callsFor_eq_zero a _
          (fun c hc => by
            rw [buyTokenLoop_calls_address cfg oracle dex addr cfg.solIn _ _ _ _ c hc]
            exact haddr)

/-- C8: with `ALLOW_REBUY=false`, sequentially processed buy signals invoke the
underlying protocol buy operation at most once per target address (a failed
attempt still counts, since the address is appended to the buy list before the
trade executes), and two buy signals for the same fresh address yield exactly
one underlying buy call. -/
theorem C8_no_rebuy_at_most_once (cfg : OrchConfig) (oracle : Nat → BuyOutcome)
    (h : cfg.allowRebuy = false) :
    (∀ signals st k a, callsFor a (runBuySignals cfg oracle signals st k).2 ≤ 1) ∧
    (∀ dex a st k, 0 ≤ cfg.maxBuyAttempts → a ∉ st.buyList →
      callsFor a (runBuySignals cfg oracle [(dex, a), (dex, a)] st k).2 = 1) := by
  constructor
  · intro signals
    induction signals with
    | nil => intro st k a; simp [runBuySignals, callsFor]
    | cons sig rest ih =>
        obtain ⟨dex, addr⟩ := sig
        intro st k a
        simp only [runBuySignals]
        rw [callsFor_append]
        by_cases haddr : addr = a
        · subst haddr
          by_cases hm : addr ∈ st.buyList
          · rw [buyToken_mem cfg oracle dex addr cfg.solIn st k h hm]
            show callsFor addr ([] : List BuyCall) +
              callsFor addr (runBuySignals cfg oracle rest st k).2 ≤ 1
            rw [(runBuySignals_mem cfg oracle h addr rest st k hm).1]
            simp [callsFor]
          · by_cases hne : (buyToken cfg oracle dex addr cfg.solIn st k).2.1 = []
            · rw [hne]
              have := ih (buyToken cfg oracle dex addr cfg.solIn st k).1
                (buyToken cfg oracle dex addr cfg.solIn st k).2.2 addr
              simpa [callsFor] using this
            · have hin : addr ∈ (buyToken cfg oracle dex addr cfg.solIn st k).1.buyList :=
                buyTokenLoop_calls_ne_nil cfg oracle dex addr cfg.solIn _ 0 st k hne
              have hrest := (runBuySignals_mem cfg oracle h addr rest
                (buyToken cfg oracle dex addr cfg.solIn st k).1
                (buyToken cfg oracle dex addr cfg.solIn st k).2.2 hin).1
              rw [hrest]
              have hlen : (buyToken cfg oracle dex addr cfg.solIn st k).2.1.length ≤ 1 :=
                buyTokenLoop_calls_len_le_one cfg oracle dex addr cfg.solIn h _ 0 st k
              have := callsFor_le_length addr (buyToken cfg oracle dex addr cfg.solIn st k).2.1
              omega
        · have h0 : callsFor a (buyToken cfg oracle dex addr cfg.solIn st k).2.1 = 0 :=
            callsFor_eq_zero a _
              (fun c hc => by
                rw [buyTokenLoop_calls_address cfg oracle dex addr cfg.solIn _ _ _ _ c hc]
                exact haddr)
          rw [h0, Nat.zero_add]
          exact ih _ _ a
  · intro dex a st k hmax hm
    simp only [runBuySignals]
    have h1 := buyToken_fresh cfg oracle dex a cfg.solIn st k h hmax hm
    have h2 := buyToken_mem cfg oracle dex a cfg.solIn
      (buyToken cfg oracle dex a cfg.solIn st k).1
      (buyToken cfg oracle dex a cfg.solIn st k).2.2 h h1.2
    rw [callsFor_append, h1.1, h2]
    simp [callsFor, runBuySignals]

/-- Witness for C8: allow-rebuy disabled, two identical signals from a fresh
session — exactly one underlying call. -/
theorem C8_no_rebuy_at_most_once_witness :
    callsFor "a" (runBuySignals ⟨"", 5, 1, 10, false, 3⟩ (fun _ => BuyOutcome.failure)
      [("pf", "a"), ("pf", "a")] ⟨[], 0⟩ 0).2 = 1 :=
  (C8_no_rebuy_at_most_once ⟨"", 5, 1, 10, false, 3⟩ (fun _ => BuyOutcome.failure) rfl).2
    "pf" "a" ⟨[], 0⟩ 0 (by norm_num) (by simp)

/-- Positivity of the per-bitmap tick range. -/
theorem ticksInOneBitmap_pos (s : Int) (hs : 0 < s) :
    0 < s * TICK_ARRAY_SIZE * TICK_ARRAY_BITMAP_SIZE := by
  have h1 : (0 : Int) < TICK_ARRAY_SIZE := by norm_num [TICK_ARRAY_SIZE]
  have h2 : (0 : Int) < TICK_ARRAY_BITMAP_SIZE := by norm_num [TICK_ARRAY_BITMAP_SIZE]
  exact mul_pos (mul_pos hs h1) h2

theorem tickCount_pos (s : Int) (hs : 0 < s) : 0 < tickCount s := by
  have h1 : (0 : Int) < TICK_ARRAY_SIZE := by norm_num [TICK_ARRAY_SIZE]
  exact mul_pos h1 hs

theorem maxTickInTickarrayBitmap_pos (s : Int) (hs : 0 < s) :
    0 < maxTickInTickarrayBitmap s :=
  ticksInOneBitmap_pos s hs

/-- The 512-array block computed by `getBitmapTickBoundary` contains its index:
lower bound inclusive, upper bound exclusive. -/
theorem getBitmapTickBoundary_bounds (s : Int) (hs : 0 < s) (i : Int) :
    (getBitmapTickBoundary i s).1 ≤ i ∧ i < (getBitmapTickBoundary i s).2 := by
  unfold getBitmapTickBoundary
  dsimp only []
  set t1 := s * TICK_ARRAY_SIZE * TICK_ARRAY_BITMAP_SIZE with ht1def
  have ht1 : 0 < t1 := ticksInOneBitmap_pos s hs
  have hfd : Int.fdiv |i| t1 = |i| / t1 := Int.fdiv_eq_ediv _ (le_of_lt ht1)
  have htm : Int.tmod |i| t1 = |i| % t1 := Int.tmod_eq_emod (abs_nonneg i) (le_of_lt ht1)
  have hid : t1 * (|i| / t1) + |i| % t1 = |i| := Int.ediv_add_emod _ _
  have hr0 : 0 ≤ |i| % t1 := Int.emod_nonneg _ (ne_of_gt ht1)
  have hr1 : |i| % t1 < t1 := Int.emod_lt_of_pos _ ht1
  rw [hfd, htm]
  have hexp : t1 * (|i| / t1 + 1) = t1 * (|i| / t1) + t1 := by ring
  by_cases hneg : i < 0
  · have habs : |i| = -i := abs_of_neg hneg
    rw [habs] at hid hr0 hr1 hexp ⊢
    rw [if_pos hneg]
    by_cases hz : -i % t1 ≠ 0
    · rw [if_pos ⟨hneg, hz⟩]
      have hz' : 0 < -i % t1 := lt_of_le_of_ne hr0 (Ne.symm hz)
      constructor
      · show -(t1 * (-i / t1 + 1)) ≤ i
        linarith
      · show i < -(t1 * (-i / t1 + 1)) + t1
        linarith
    · push_neg at hz
      rw [if_neg (show ¬(i < 0 ∧ -i % t1 ≠ 0) from fun hc => hc.2 hz)]
      rw [hz, add_zero] at hid
      constructor
      · show -(t1 * (-i / t1)) ≤ i
        linarith
      · show i < -(t1 * (-i / t1)) + t1
        linarith
  · have habs : |i| = i := abs_of_nonneg (not_lt.mp hneg)
    rw [habs] at hid hr0 hr1 hexp ⊢
    rw [if_neg hneg]
    rw [if_neg (show ¬(i < 0 ∧ i % t1 ≠ 0) from fun hc => hneg hc.1)]
    constructor
    · show t1 * (i / t1) ≤ i
      linarith
    · show i < t1 * (i / t1) + t1
      linarith

/-- When the inline-bitmap scan toward lower ticks reports not-found, the
returned fallback index does not exceed the incoming one. -/
theorem inBitmap_false_le (b : Nat) (L s : Int) (hs : 0 < s) (res : Bool × Int)
    (hres : nextInitializedTickArrayStartIndexInBitmap b L s true = res)
    (hfalse : res.1 = false) : res.2 ≤ L := by
  have htc : 0 < tickCount s := tickCount_pos s hs
  unfold nextInitializedTickArrayStartIndexInBitmap at hres
  simp only [if_true] at hres
  split at hres
  · rw [← hres]
  · next hin =>
      push_neg at hin
      split at hres
      · rw [← hres] at hfalse
        simp at hfalse
      · rw [← hres]
        simp only []
        linarith [hin.1]

/-- When the inline-bitmap scan toward higher ticks reports not-found, the
returned fallback index is not below the incoming one. -/
theorem inBitmap_false_ge (b : Nat) (L s : Int) (hs : 0 < s) (res : Bool × Int)
    (hres : nextInitializedTickArrayStartIndexInBitmap b L s false = res)
    (hfalse : res.1 = false) : L ≤ res.2 := by
  have htc : 0 < tickCount s := tickCount_pos s hs
  unfold nextInitializedTickArrayStartIndexInBitmap at hres
  simp only [Bool.false_eq_true, if_false] at hres
  split at hres
  · rw [← hres]
  · next hin =>
      push_neg at hin
      split at hres
      · rw [← hres] at hfalse
        simp at hfalse
      · rw [← hres]
        simp only []
        linarith [hin.2]

/-- When the single-segment extension scan toward lower ticks reports not-found,
its fallback index does not exceed the probed index. -/
theorem inOneBitmap_false_le (bm : List Nat) (next s : Int) (hs : 0 < s)
    (res : Bool × Int)
    (hres : nextInitializedTickArrayInBitmap bm next s true = res)
    (hfalse : res.1 = false) : res.2 ≤ next := by
  unfold nextInitializedTickArrayInBitmap at hres
  simp only [if_true] at hres
  split at hres
  · rw [← hres]
    exact (getBitmapTickBoundary_bounds s hs next).1
  · rw [← hres] at hfalse
    simp at hfalse

/-- When the single-segment extension scan toward higher ticks reports not-found,
its fallback index exceeds the probed index minus one tick count. -/
theorem inOneBitmap_false_ge (bm : List Nat) (next s : Int) (hs : 0 < s)
    (res : Bool × Int)
    (hres : nextInitializedTickArrayInBitmap bm next s false = res)
    (hfalse : res.1 = false) : next - tickCount s < res.2 := by
  unfold nextInitializedTickArrayInBitmap at hres
  simp only [Bool.false_eq_true, if_false] at hres
  split at hres
  · rw [← hres]
    simp only []
    have := (getBitmapTickBoundary_bounds s hs next).2
    linarith
  · rw [← hres] at hfalse
    simp at hfalse

/-- The extension step toward lower ticks strictly decreases the index when it
reports not-found. -/
theorem fromOneBitmap_false_lt (s1 s : Int) (hs : 0 < s)
    (pos neg : List (List Nat)) (res : Bool × Int)
    (hres : nextInitializedTickArrayFromOneBitmap s1 s true pos neg = res)
    (hfalse : res.1 = false) : res.2 < s1 := by
  have htc : 0 < tickCount s := tickCount_pos s hs
  unfold nextInitializedTickArrayFromOneBitmap at hres
  simp only [if_true] at hres
  split at hres
  · rw [← hres]
    simp only []
    linarith
  · have := inOneBitmap_false_le _ _ _ hs res hres hfalse
    linarith

/-- The extension step toward higher ticks strictly increases the index when it
reports not-found. -/
theorem fromOneBitmap_false_gt (s1 s : Int) (hs : 0 < s)
    (pos neg : List (List Nat)) (res : Bool × Int)
    (hres : nextInitializedTickArrayFromOneBitmap s1 s false pos neg = res)
    (hfalse : res.1 = false) : s1 < res.2 := by
  have htc : 0 < tickCount s := tickCount_pos s hs
  unfold nextInitializedTickArrayFromOneBitmap at hres
  simp only [Bool.false_eq_true, if_false] at hres
  split at hres
  · rw [← hres]
    simp only []
    linarith
  · have := inOneBitmap_false_ge _ _ _ hs res hres hfalse
    linarith

/-- A continuing loop iteration toward lower ticks lands strictly below the
previous index and within the tick bounds. -/
theorem step_inr_lower (bm : List Nat) (pos neg : List (List Nat)) (s : Int)
    (hs : 0 < s) (L L' : Int)
    (hstep : nextInitializedTickArrayStep bm pos neg s true L = Sum.inr L') :
    MIN_TICK ≤ L' ∧ L' ≤ MAX_TICK ∧ L' < L := by
  unfold nextInitializedTickArrayStep at hstep
  dsimp only [] at hstep
  split at hstep
  · exact absurd hstep (by simp)
  · next hf1 =>
      split at hstep
      · exact absurd hstep (by simp)
      · next hf2 =>
          split at hstep
          · exact absurd hstep (by simp)
          · next hbounds =>
              push_neg at hbounds
              have hL' : _ = L' := Sum.inr.inj hstep
              subst hL'
              have h1 := inBitmap_false_le (u1024FromList bm) L s hs _ rfl
                (Bool.of_not_eq_true hf1)
              have h2 := fromOneBitmap_false_lt _ s hs pos neg _ rfl
                (Bool.of_not_eq_true hf2)
              exact ⟨hbounds.1, hbounds.2, by linarith⟩

/-- A continuing loop iteration toward higher ticks lands strictly above the
previous index and within the tick bounds. -/
theorem step_inr_upper (bm : List Nat) (pos neg : List (List Nat)) (s : Int)
    (hs : 0 < s) (L L' : Int)
    (hstep : nextInitializedTickArrayStep bm pos neg s false L = Sum.inr L') :
    MIN_TICK ≤ L' ∧ L' ≤ MAX_TICK ∧ L < L' := by
  unfold nextInitializedTickArrayStep at hstep
  dsimp only [] at hstep
  split at hstep
  · exact absurd hstep (by simp)
  · next hf1 =>
      split at hstep
      · exact absurd hstep (by simp)
      · next hf2 =>
          split at hstep
          · exact absurd hstep (by simp)
          · next hbounds =>
              push_neg at hbounds
              have hL' : _ = L' := Sum.inr.inj hstep
              subst hL'
              have h1 := inBitmap_false_ge (u1024FromList bm) L s hs _ rfl
                (Bool.of_not_eq_true hf1)
              have h2 := fromOneBitmap_false_gt _ s hs pos neg _ rfl
                (Bool.of_not_eq_true hf2)
              exact ⟨hbounds.1, hbounds.2, by linarith⟩

/-- With enough fuel the downward scan loop always returns. -/
theorem nia_loop_some_lower (bm : List Nat) (pos neg : List (List Nat)) (s : Int)
    (hs : 0 < s) :
    ∀ fuel L, (L - MIN_TICK).toNat + 1 ≤ fuel →
      (nextInitializedTickArrayLoop bm pos neg s true fuel L).isSome = true := by
  intro fuel
  induction fuel with
  | zero => intro L hL; omega
  | succ fuel ih =>
      intro L hL
      simp only [nextInitializedTickArrayLoop]
      cases hstep : nextInitializedTickArrayStep bm pos neg s true L with
      | inl r => rfl
      | inr L' =>
          have hb := step_inr_lower bm pos neg s hs L L' hstep
          exact ih L' (by omega)

/-- With enough fuel the upward scan loop always returns. -/
theorem nia_loop_some_upper (bm : List Nat) (pos neg : List (List Nat)) (s : Int)
    (hs : 0 < s) :
    ∀ fuel L, (MAX_TICK - L).toNat + 1 ≤ fuel →
      (nextInitializedTickArrayLoop bm pos neg s false fuel L).isSome = true := by
  intro fuel
  induction fuel with
  | zero => intro L hL; omega
  | succ fuel ih =>
      intro L hL
      simp only [nextInitializedTickArrayLoop]
      cases hstep : nextInitializedTickArrayStep bm pos neg s false L with
      | inl r => rfl
      | inr L' =>
          have hb := step_inr_upper bm pos neg s hs L L' hstep
          exact ih L' (by omega)

/-- C9: for every inline bitmap, extension bitmap pair, last start index and
positive tick spacing, in either scan direction, the alternating
inline/extension loop of `nextInitializedTickArrayStartIndex` terminates within
the stated fuel: it returns either an initialized start index (`some (some i)`)
or the not-found sentinel (`some none`) once the index passes the tick bounds,
and never runs forever. -/
theorem C9_nextInitializedTickArrayStartIndex_terminates (tickArrayBitmap : List Nat)
    (positiveBitmap negativeBitmap : List (List Nat))
    (lastTickArrayStartIndex tickSpacing : Int) (zeroForOne : Bool)
    (hs : 0 < tickSpacing) :
    (nextInitializedTickArrayStartIndex tickArrayBitmap positiveBitmap negativeBitmap
      lastTickArrayStartIndex tickSpacing zeroForOne
      (niaFuel lastTickArrayStartIndex tickSpacing)).isSome = true := by
  unfold nextInitializedTickArrayStartIndex niaFuel
  cases zeroForOne with
  | true =>
      exact nia_loop_some_lower tickArrayBitmap positiveBitmap negativeBitmap tickSpacing hs
        _ _ (by omega)
  | false =>
      exact nia_loop_some_upper tickArrayBitmap positiveBitmap negativeBitmap tickSpacing hs
        _ _ (by omega)

/-- Witness for C9: zero bitmaps, spacing 1, downward scan from index 0. -/
theorem C9_nextInitializedTickArrayStartIndex_terminates_witness :
    (nextInitializedTickArrayStartIndex (List.replicate 16 0)
      (List.replicate 14 (List.replicate 8 0)) (List.replicate 14 (List.replicate 8 0))
      0 1 true (niaFuel 0 1)).isSome = true :=
  C9_nextInitializedTickArrayStartIndex_terminates (List.replicate 16 0)
    (List.replicate 14 (List.replicate 8 0)) (List.replicate 14 (List.replicate 8 0))
    0 1 true (by norm_num)
